import Mathlib

/-!
Verification of the token-usage-to-work-item attribution pipeline of the
ai-in-sdlc-metrics-scripts repository, shallowly embedded in Lean 4.

The definitions mirror the JavaScript sources:
* `src/data/transcripts/utils/tokenExtractor.js` — ticket extraction from
  branch names and workflow commands, the per-file attribution state
  machine, and the global per-ticket token aggregation;
* the analytics CSV merge script — composite-key row deduplication;
* the weekly correlation module — ticket-to-merged-PR mapping, weekly
  token/story-point totals, and derived cost ratios;
* the shared date utilities — closed-interval week membership with
  end-of-day normalization.

Machine numbers are modelled as `Nat`/`Int`/`ℚ`; JavaScript `null` and
`undefined` are modelled explicitly where the distinction is observable.
-/

namespace Sdlc

/-! ## Ticket extraction (tokenExtractor.js lines 11-37)

`extractTicketFromBranch` applies the regex `/([A-Z]+-\d+)/i` and
upper-cases the whole match.  The regex is embedded as a left-to-right
scanner over the character list: a match at a position is a maximal
nonempty run of ASCII letters, a dash, then a nonempty run of digits. -/

def isAsciiLetter (c : Char) : Bool :=
  ('A' ≤ c && c ≤ 'Z') || ('a' ≤ c && c ≤ 'z')

def isAsciiDigit (c : Char) : Bool :=
  '0' ≤ c && c ≤ '9'

/-- Attempt to match `[A-Za-z]+-[0-9]+` at the head of `cs`, returning the
matched characters. -/
def matchTicketAt (cs : List Char) : Option (List Char) :=
  let letters := cs.takeWhile isAsciiLetter
  if letters.isEmpty then none
  else
    match cs.drop letters.length with
    | '-' :: rest =>
        let digits := rest.takeWhile isAsciiDigit
        if digits.isEmpty then none else some (letters ++ '-' :: digits)
    | _ => none

/-- Leftmost match of the case-insensitive ticket pattern. -/
def findTicket : List Char → Option (List Char)
  | [] => none
  | c :: cs =>
    match matchTicketAt (c :: cs) with
    | some m => some m
    | none => findTicket cs

/-- Attempt to match `[A-Z]+-[0-9]+` (case-sensitive, as in
`extractJiraTicket`) at the head of `cs`. -/
def matchTicketUpperAt (cs : List Char) : Option (List Char) :=
  let letters := cs.takeWhile (fun c => 'A' ≤ c && c ≤ 'Z')
  if letters.isEmpty then none
  else
    match cs.drop letters.length with
    | '-' :: rest =>
        let digits := rest.takeWhile isAsciiDigit
        if digits.isEmpty then none else some (letters ++ '-' :: digits)
    | _ => none

/-- Leftmost match of the case-sensitive ticket pattern. -/
def findTicketUpper : List Char → Option (List Char)
  | [] => none
  | c :: cs =>
    match matchTicketUpperAt (c :: cs) with
    | some m => some m
    | none => findTicketUpper cs

/-- Embeds `extractTicketFromBranch(branch)` (tokenExtractor.js lines 11-15):
`null`/empty branch gives `null`, otherwise the upper-cased first regex
match, or `null` when the pattern does not occur. -/
def extractTicketFromBranch (branch : Option String) : Option String :=
  match branch with
  | none => none
  | some b =>
    if b = "" then none
    else (findTicket b.data).map (fun m => String.mk (m.map Char.toUpper))

/-- Scan for `<command-args>([^<]+)</command-args>` starting exactly here:
the literal opening tag, a nonempty run of characters other than `<`
(the capture), then the literal closing tag. -/
def matchArgsAt (cs : List Char) : Option (List Char) :=
  if "<command-args>".data.isPrefixOf cs then
    let rest := cs.drop "<command-args>".data.length
    let cap := rest.takeWhile (fun c => c ≠ '<')
    if cap.isEmpty then none
    else if "</command-args>".data.isPrefixOf (rest.drop cap.length) then some cap
    else none
  else none

/-- Leftmost occurrence of the command-args pattern (the JS engine retries
at the next start position when a partial match fails, which this scanner
reproduces by advancing one character at a time). -/
def findArgs : List Char → Option (List Char)
  | [] => none
  | c :: cs =>
    match matchArgsAt (c :: cs) with
    | some m => some m
    | none => findArgs cs

/-- Embeds `extractTicketFromWorkflow(content)` (tokenExtractor.js lines 20-37).
The content is modelled as the string the JS code scans: a string content
directly, an array content by its `JSON.stringify` rendering (non-string,
non-array contents scan as the empty string and yield `null`). -/
def extractTicketFromWorkflow (content : Option String) : Option String :=
  match content with
  | none => none
  | some c =>
    match findArgs c.data with
    | none => none
    | some args =>
      (findTicket args).map (fun m => String.mk (m.map Char.toUpper))

/-- Embeds `extractJiraTicket(text)` (jira utilities / prUtils): case-sensitive
`/([A-Z]+-\d+)/` with no case mapping applied to the result. -/
def extractJiraTicket (text : Option String) : Option String :=
  match text with
  | none => none
  | some s =>
    if s = "" then none
    else (findTicketUpper s.data).map String.mk

/-! ## Transcript events and per-file attribution
(tokenExtractor.js lines 42-109)

A transcript file is a list of lines; each line is either a parsed event
(`some e`) or a line on which `JSON.parse` (or the subsequent property
access) threw (`none`).  The `catch` block is empty: such a line is
simply skipped. -/

structure Usage where
  input_tokens : Option Nat
  output_tokens : Option Nat
  cache_creation_input_tokens : Option Nat
  cache_read_input_tokens : Option Nat
  thinking_output_tokens : Option Nat
  deriving DecidableEq, Repr

structure Message where
  content : Option String
  usage : Option Usage
  deriving DecidableEq, Repr

structure Event where
  type : String
  gitBranch : Option String
  message : Option Message
  deriving DecidableEq, Repr

structure TokenTotals where
  total : Nat
  input : Nat
  output : Nat
  cacheCreation : Nat
  cacheRead : Nat
  thinking : Nat
  deriving DecidableEq, Repr

def zeroTotals : TokenTotals := ⟨0, 0, 0, 0, 0, 0⟩

def addTotals (a b : TokenTotals) : TokenTotals :=
  ⟨a.total + b.total, a.input + b.input, a.output + b.output,
   a.cacheCreation + b.cacheCreation, a.cacheRead + b.cacheRead,
   a.thinking + b.thinking⟩

/-- The per-event contribution: each missing usage field is treated as 0
(the JS `|| 0`), and `total` is the computed sum of the five categories. -/
def usageToTotals (u : Usage) : TokenTotals :=
  let i := u.input_tokens.getD 0
  let o := u.output_tokens.getD 0
  let cc := u.cache_creation_input_tokens.getD 0
  let cr := u.cache_read_input_tokens.getD 0
  let th := u.thinking_output_tokens.getD 0
  ⟨i + o + cc + cr + th, i, o, cc, cr, th⟩

/-- The mutable attribution context of one transcript file. -/
structure AttState where
  currentBranch : Option String
  currentTicketFromBranch : Option String
  currentTicketFromWorkflow : Option String
  deriving DecidableEq, Repr

def initState : AttState := ⟨none, none, none⟩

/-- First per-event update: a truthy `gitBranch` overwrites the branch
ticket (possibly with `null`, when the new branch has no ticket). -/
def stepBranch (st : AttState) (e : Event) : AttState :=
  match e.gitBranch with
  | some b =>
    if b ≠ "" then
      { st with currentBranch := some b,
                currentTicketFromBranch := extractTicketFromBranch (some b) }
    else st
  | none => st

/-- Second per-event update: a workflow ticket found in truthy message
content overwrites the workflow ticket (only when one is found). -/
def stepWorkflow (st : AttState) (e : Event) : AttState :=
  match e.message with
  | some m =>
    match m.content with
    | some c =>
      if c ≠ "" then
        match extractTicketFromWorkflow (some c) with
        | some t => { st with currentTicketFromWorkflow := some t }
        | none => st
      else st
    | none => st
  | none => st

/-- The two state updates performed for each parsed event, in source
order. -/
def stepState (st : AttState) (e : Event) : AttState :=
  stepWorkflow (stepBranch st e) e

/-- Resolution order `currentTicketFromWorkflow || currentTicketFromBranch || 'UNATTRIBUTED'`. -/
def resolveTicket (st : AttState) : String :=
  match st.currentTicketFromWorkflow with
  | some w => w
  | none =>
    match st.currentTicketFromBranch with
    | some b => b
    | none => "UNATTRIBUTED"

/-- Per-ticket token accumulator, keyed by ticket string. -/
def TokMap : Type := String → Option TokenTotals

def emptyTok : TokMap := fun _ => none

/-- Create-if-absent then add each counter (tokenExtractor.js lines
85-101). -/
def updateTok (m : TokMap) (t : String) (u : Usage) : TokMap :=
  fun t' =>
    if t' = t then some (addTotals (((m t).getD zeroTotals)) (usageToTotals u))
    else m t'

/-- The usage attached to an event, when the event is an assistant message
carrying usage data. -/
def eventUsage (e : Event) : Option Usage :=
  if e.type = "assistant" then e.message.bind (fun m => m.usage) else none

structure FileAcc where
  st : AttState
  tokens : TokMap

def initAcc : FileAcc := ⟨initState, emptyTok⟩

/-- Process one line: a malformed line (`none`) is skipped by the empty
`catch`; a parsed event updates the attribution state and, when it is an
assistant message with usage, adds its usage to the resolved ticket. -/
def processLine (acc : FileAcc) (line : Option Event) : FileAcc :=
  match line with
  | none => acc
  | some e =>
    let st' := stepState acc.st e
    match eventUsage e with
    | some u => ⟨st', updateTok acc.tokens (resolveTicket st') u⟩
    | none => ⟨st', acc.tokens⟩

/-- Embeds `extractTokensFromTranscript` as a fold over the file's lines,
starting from the all-null state and empty accumulator. -/
def processFile (lines : List (Option Event)) : FileAcc :=
  lines.foldl processLine initAcc

def extractTokensFromTranscript (lines : List (Option Event)) : TokMap :=
  (processFile lines).tokens

/-- The workflow signal a line yields, if any: the event must have truthy
message content in which `extractTicketFromWorkflow` finds a ticket. -/
def wfSignal (line : Option Event) : Option String :=
  match line with
  | none => none
  | some e =>
    match e.message with
    | some m =>
      match m.content with
      | some c => if c ≠ "" then extractTicketFromWorkflow (some c) else none
      | none => none
    | none => none

/-! ## Global aggregation across files (tokenExtractor.js lines 155-182) -/

/-- Merging a per-file map into the global map: for each ticket present in
the file map, create-if-absent and add all six counters. -/
def mergeMaps (g f : TokMap) : TokMap :=
  fun t =>
    match f t with
    | none => g t
    | some v => some (addTotals ((g t).getD zeroTotals) v)

/-- Embeds `extractAllTokens` over an in-memory list of files (each already split
into parse results). -/
def extractAllTokens (files : List (List (Option Event))) : TokMap :=
  files.foldl (fun g file => mergeMaps g (extractTokensFromTranscript file)) emptyTok

/-! ## Transcript discovery (tokenExtractor.js lines 114-134)

`findTranscriptFiles` recursively scans a directory tree and collects
files whose basename ends in `.jsonl` and does not start with `agent-`. -/

inductive FSTree where
  | file (name : String)
  | dir (entries : List FSTree)

def jsStartsWith (s pre : String) : Bool := pre.data.isPrefixOf s.data

def jsEndsWith (s suf : String) : Bool := suf.data.isSuffixOf s.data

mutual

def scanTree : FSTree → List String
  | .file name =>
    if jsEndsWith name ".jsonl" && !(jsStartsWith name "agent-") then [name] else []
  | .dir entries => scanList entries

def scanList : List FSTree → List String
  | [] => []
  | t :: ts => scanTree t ++ scanList ts

end

/-! ## CSV merge and deduplication (merge_analytics script)

`getRowKey` splits a raw CSV line on commas, trims each field, binds the
fields to the header names (later duplicate headers win, a missing value
reads as the empty string, and a column name absent from the header reads
as the JS string `"undefined"` in the template literal), and builds the
per-file composite key. -/

/-- ASCII whitespace stripped by the JS `trim()` calls of the merge
script (its data never carries the more exotic Unicode spaces). -/
def isWsChar (c : Char) : Bool :=
  c = ' ' || c = '\t' || c = '\n' || c = '\r'

def jsTrim (s : String) : String :=
  String.mk (((s.data.dropWhile isWsChar).reverse.dropWhile isWsChar).reverse)

/-- Embeds `line.split(',')` as a structural scan over the characters. -/
def splitCommaAux : List Char → List Char → List (List Char)
  | [], cur => [cur.reverse]
  | c :: cs, cur =>
    if c = ',' then cur.reverse :: splitCommaAux cs []
    else splitCommaAux cs (c :: cur)

def splitRow (line : String) : List String :=
  ((splitCommaAux line.data []).map String.mk).map jsTrim

/-- Reads `row[name]` as the template literal in `getRowKey` does. -/
def colVal (headers vals : List String) (name : String) : String :=
  let idxs := (List.range headers.length).filter (fun i => headers.get? i = some name)
  match idxs.getLast? with
  | some i => (vals.get? i).getD ""
  | none => "undefined"

/-- Embeds `getRowKey(csvFileName, rowData, headers)`. -/
def getRowKey (csvFileName : String) (rowData : String) (headers : List String) : String :=
  let vals := splitRow rowData
  let v := fun name => colVal headers vals name
  if csvFileName = "costs.csv" then
    v "session_id" ++ "|" ++ v "turn_number" ++ "|" ++ v "message_id"
  else if csvFileName = "sessions.csv" then
    v "session_id" ++ "|" ++ v "branch" ++ "|" ++ v "started_at" ++ "|" ++ v "ended_at"
  else if csvFileName = "turns.csv" then
    v "session_id" ++ "|" ++ v "turn_number"
  else if csvFileName = "compactions.csv" then
    v "session_id" ++ "|" ++ v "turn_number" ++ "|" ++ v "timestamp"
  else if csvFileName = "prompts.csv" then
    v "session_id" ++ "|" ++ v "turn_number" ++ "|" ++ v "timestamp"
  else if csvFileName = "tool_usage.csv" then
    v "session_id" ++ "|" ++ v "turn_number" ++ "|" ++ v "tool_name" ++ "|" ++ v "started_at"
  else if csvFileName = "commits.csv" then
    v "commit_sha" ++ "|" ++ v "session_id"
  else if csvFileName = "git_operations.csv" then
    v "session_id" ++ "|" ++ v "operation_type" ++ "|" ++ v "timestamp"
  else rowData

/-- The merge loop's per-row filter: keep a row exactly when its key has
not been seen; a kept row's key joins the seen set. -/
def dedupGo (csvFileName : String) (headers : List String) :
    List String → List String → List String
  | [], _ => []
  | r :: rs, seen =>
    if getRowKey csvFileName r headers ∈ seen then dedupGo csvFileName headers rs seen
    else r :: dedupGo csvFileName headers rs (getRowKey csvFileName r headers :: seen)

/-- Deduplicate the concatenated rows of all (header-compatible) sources,
in input order, starting from an empty seen-key set. -/
def dedupRows (csvFileName : String) (headers : List String) (rows : List String) :
    List String :=
  dedupGo csvFileName headers rows []

/-! ## Week membership (shared/utils/dateUtils.js lines 3-9)

Timestamps are milliseconds; a week's `start`/`end` are the midnights of
its start and end dates, and `isInWeek` normalizes the end to
23:59:59.999 before the closed-interval test. -/

structure Week where
  name : String
  startMs : Int
  endMs : Int
  deriving DecidableEq, Repr

def endOfDayMs (e : Int) : Int := e + 86399999

def isInWeek (ts : Int) (w : Week) : Bool :=
  decide (w.startMs ≤ ts) && decide (ts ≤ endOfDayMs w.endMs)

/-! ## Ticket-to-PR mapping (tokens-per-story-point module lines 11-35) -/

structure PR where
  number : Nat
  title : Option String
  state : String
  createdAt : Int
  mergedAt : Option Int
  deriving DecidableEq, Repr

structure PRLink where
  prNumber : Nat
  createdAt : Int
  mergedAt : Option Int
  week : String
  deriving DecidableEq, Repr

def mkLink (pr : PR) (w : Week) : PRLink :=
  ⟨pr.number, pr.createdAt, pr.mergedAt, w.name⟩

/-- Does `pr` produce an entry for ticket `t` in week `w`: it is MERGED,
its title's ticket is `t`, and it was created inside the week. -/
def prMatches (w : Week) (t : String) (pr : PR) : Bool :=
  decide (pr.state = "MERGED") && decide (extractJiraTicket pr.title = some t)
    && isInWeek pr.createdAt w

/-- The body of the `forEach` over PRs: skip non-MERGED PRs, skip titles
without a ticket, skip PRs created outside the week, otherwise assign
(and therefore overwrite) the ticket's entry. -/
def prStep (w : Week) (acc : String → Option PRLink) (pr : PR) : String → Option PRLink :=
  if pr.state = "MERGED" then
    match extractJiraTicket pr.title with
    | some t =>
      if isInWeek pr.createdAt w then
        fun t' => if t' = t then some (mkLink pr w) else acc t'
      else acc
    | none => acc
  else acc

/-- Embeds `buildTicketToPRMapping(prs, week)`: a plain object keyed by ticket. -/
def buildTicketToPRMapping (prs : List PR) (w : Week) : String → Option PRLink :=
  prs.foldl (prStep w) (fun _ => none)

/-! ## Weekly totals (tokens-per-story-point module lines 66-97)

The loop over the week's tickets accumulates three counters:
`weekTotalSPAllTickets` counts story points for every ticket with a
truthy story-point value; `weekTotalSP` and `weekTotalTokens` count only
tickets that also have attributed tokens. -/

structure WeekAcc where
  tokensTot : Nat
  sp : Nat
  spAll : Nat
  deriving DecidableEq, Repr

def weekStep (tokens : TokMap) (jira : String → Option Nat) (acc : WeekAcc)
    (t : String) : WeekAcc :=
  match jira t with
  | some spv =>
    if spv ≠ 0 then
      let acc1 := { acc with spAll := acc.spAll + spv }
      match tokens t with
      | some tk => { acc1 with tokensTot := acc1.tokensTot + tk.total, sp := acc1.sp + spv }
      | none => acc1
    else acc
  | none => acc

def weekTotals (tokens : TokMap) (jira : String → Option Nat)
    (tickets : List String) : WeekAcc :=
  tickets.foldl (weekStep tokens jira) ⟨0, 0, 0⟩

/-! ## Derived ratios

JavaScript values are modelled with explicit `null`, `undefined`, `NaN`
and `Infinity` so the guard structure of the ratio computations can be
stated faithfully. -/

inductive JSVal where
  | num (q : ℚ)
  | null
  | undef
  | nan
  | inf
  deriving DecidableEq, Repr

/-- JS truthiness of the values above (`0`, `null`, `undefined`, `NaN`
are falsy). -/
def truthy : JSVal → Bool
  | .num q => q ≠ 0
  | .inf => true
  | _ => false

/-- The `x > 0` comparisons guarding each ratio (comparisons against
`null` coerce to 0, against `undefined`/`NaN` are false). -/
def jsGTzero : JSVal → Bool
  | .num q => 0 < q
  | .inf => true
  | _ => false

/-- Numeric coercion for arithmetic (`Number(null) = 0`,
`Number(undefined) = NaN`). -/
def toNum : JSVal → JSVal
  | .num q => .num q
  | .null => .num 0
  | .undef => .nan
  | .nan => .nan
  | .inf => .inf

/-- Division on the (non-negative) numeric domain of this pipeline:
`0/0` is `NaN`, `x/0` with `x ≠ 0` is `Infinity`. -/
def jsDiv (a b : JSVal) : JSVal :=
  match toNum a, toNum b with
  | .num x, .num y =>
    if y = 0 then (if x = 0 then .nan else .inf) else .num (x / y)
  | .inf, .num y => if y = 0 then .inf else .inf
  | .num _, .inf => .num 0
  | _, _ => .nan

def jsMul (a b : JSVal) : JSVal :=
  match toNum a, toNum b with
  | .num x, .num y => .num (x * y)
  | _, _ => .nan

/-- Rounds as `Math.round` (half up) on a numeric value. -/
def jsRound : JSVal → JSVal
  | .num q => .num ((⌊q + 1 / 2⌋ : Int) : ℚ)
  | v => v

/-- Embeds `parseFloat(x.toFixed(d))`: rounding to `d` decimal places. -/
def toFixedVal (d : Nat) : JSVal → JSVal
  | .num q => .num (((⌊q * (10 : ℚ) ^ d + 1 / 2⌋ : Int) : ℚ) / (10 : ℚ) ^ d)
  | v => v

/-- Embeds `tokensPerSP` (tokens-per-story-point module line 90):
`weekTotalSP > 0 ? Math.round(weekTotalTokens / weekTotalSP) : null`. -/
def tokensPerSP (weekTotalTokens weekTotalSP : Nat) : JSVal :=
  if weekTotalSP > 0 then
    jsRound (jsDiv (.num weekTotalTokens) (.num weekTotalSP))
  else .null

structure CostMetrics where
  totalCost : JSVal
  costPerLOC : JSVal
  costPerPR : JSVal
  costPerSP : JSVal
  deriving DecidableEq, Repr

/-- Embeds `calculateCostMetrics` (tokens-per-story-point module lines 111-136):
falsy `claudeCost` short-circuits to all-null; otherwise each ratio is
guarded by a strict positivity test on its denominator. -/
def calculateCostMetrics (claudeCost storyPoints featurePRs totalLOC : JSVal) :
    CostMetrics :=
  if truthy claudeCost then
    { totalCost := claudeCost
      costPerLOC :=
        if jsGTzero totalLOC then toFixedVal 4 (jsDiv claudeCost totalLOC) else .null
      costPerPR :=
        if jsGTzero featurePRs then toFixedVal 2 (jsDiv claudeCost featurePRs) else .null
      costPerSP :=
        if jsGTzero storyPoints then toFixedVal 2 (jsDiv claudeCost storyPoints) else .null }
  else ⟨.null, .null, .null, .null⟩

/-- The derived pair `(locPerToken, tokensPerCycleTime)` from the
dashboard generator: both fields are assigned only inside
`if (totalTokens && featurePRs && locPerPR)`, and `tokensPerCycleTime`
is explicitly `undefined` when `cycleTime` is falsy; outside the guard
both remain unassigned (`undefined`). -/
def dashboardDerived (totalTokens featurePRs locPerPR cycleTime : JSVal) :
    JSVal × JSVal :=
  if truthy totalTokens && truthy featurePRs && truthy locPerPR then
    let totalLOC := jsMul featurePRs locPerPR
    ( toFixedVal 8 (jsDiv totalLOC totalTokens),
      if truthy cycleTime then jsRound (jsDiv totalTokens cycleTime) else .undef )
  else (.undef, .undef)

/-! ## Concrete fixtures used by witness theorems -/

def evBranchA : Event := ⟨"user", some "feature/VIBE-100", none⟩

def evWorkflowB : Event :=
  ⟨"user", none, some ⟨some "<command-args>VIBE-200</command-args>", none⟩⟩

def evBranchA2 : Event := ⟨"user", some "feature/VIBE-100-again", none⟩

def usageSmall : Usage := ⟨some 10, some 5, none, none, none⟩

def evAssistant : Event := ⟨"assistant", none, some ⟨none, some usageSmall⟩⟩

/-! ## Theorems -/

/-- C2, counterexample: the ticket VIBE-516 is NOT remapped to VIBE-216 by
the branch-extraction path — no typo-correction table exists in the code;
the extracted ticket is the raw (upper-cased) match. -/
theorem c2_counterexample :
    extractTicketFromBranch (some "feature/VIBE-516-fix") ≠ some "VIBE-216" ∧
    extractTicketFromWorkflow (some "<command-args>VIBE-516</command-args>") ≠
      some "VIBE-216" := by
  constructor <;> decide

/-- C2, amended: an occurrence of VIBE-516 in a branch name or in a
workflow-command argument is used verbatim (upper-cased) for attribution;
neither extraction path applies any remapping. -/
theorem c2_no_remap :
    extractTicketFromBranch (some "feature/VIBE-516-fix") = some "VIBE-516" ∧
    extractTicketFromWorkflow (some "<command-args>VIBE-516</command-args>") =
      some "VIBE-516" := by
  constructor <;> decide

/-- C9, counterexample: a malformed line is skipped with NO observable
trace — the entire result of processing a file with a malformed line
equals the result without it, so in particular no parse-error counter is
incremented anywhere (the `catch` block is empty). -/
theorem c9_counterexample :
    processFile [some ⟨"assistant", some "VIBE-1-b",
        some ⟨none, some ⟨some 3, some 4, none, none, none⟩⟩⟩, none] =
      processFile [some ⟨"assistant", some "VIBE-1-b",
        some ⟨none, some ⟨some 3, some 4, none, none, none⟩⟩⟩] := rfl

/-- C9, amended: processing a transcript file never throws (the embedded
function is total), and a malformed JSON line anywhere in the file is
skipped, leaving the attribution state and the accumulated per-ticket
totals exactly as they were — but no parse-error counter is kept. -/
theorem c9_malformed_skipped (l1 l2 : List (Option Event)) :
    processFile (l1 ++ none :: l2) = processFile (l1 ++ l2) := by
  unfold processFile
  rw [List.foldl_append, List.foldl_append, List.foldl_cons]
  rfl

mutual

theorem scanTree_mem (t : FSTree) :
    ∀ n ∈ scanTree t, jsEndsWith n ".jsonl" = true ∧ jsStartsWith n "agent-" = false := by
  cases t with
  | file name =>
    intro n hn
    simp only [scanTree] at hn
    by_cases h : (jsEndsWith name ".jsonl" && !jsStartsWith name "agent-") = true
    · rw [if_pos h] at hn
      simp only [List.mem_singleton] at hn
      subst hn
      simp only [Bool.and_eq_true, Bool.not_eq_true'] at h
      exact ⟨h.1, h.2⟩
    · rw [if_neg h] at hn
      exact absurd hn (List.not_mem_nil n)
  | dir entries => exact scanList_mem entries

theorem scanList_mem (ts : List FSTree) :
    ∀ n ∈ scanList ts, jsEndsWith n ".jsonl" = true ∧ jsStartsWith n "agent-" = false := by
  cases ts with
  | nil => intro n hn; simp only [scanList] at hn; exact absurd hn (List.not_mem_nil n)
  | cons t ts =>
    intro n hn
    simp only [scanList, List.mem_append] at hn
    rcases hn with hn | hn
    · exact scanTree_mem t n hn
    · exact scanList_mem ts n hn

end

/-- C10: transcript discovery collects only names ending in `.jsonl` and
not starting with `agent-`; consequently a file named `agent-*.jsonl`
never appears in the discovered set, so none of its events reach the
token aggregation. -/
theorem c10_agent_files_excluded (t : FSTree) (name : String)
    (hagent : jsStartsWith name "agent-" = true) :
    name ∉ scanTree t ∧
    ∀ n ∈ scanTree t, jsEndsWith n ".jsonl" = true ∧ jsStartsWith n "agent-" = false := by
  refine ⟨fun hmem => ?_, scanTree_mem t⟩
  have h := (scanTree_mem t name hmem).2
  rw [hagent] at h
  exact Bool.noConfusion h

lemma isInWeek_iff (ts : Int) (w : Week) :
    isInWeek ts w = true ↔ (w.startMs ≤ ts ∧ ts ≤ endOfDayMs w.endMs) := by
  simp [isInWeek, Bool.and_eq_true, decide_eq_true_eq]

lemma prStep_eq (w : Week) (acc : String → Option PRLink) (pr : PR) (t : String) :
    prStep w acc pr t = if prMatches w t pr then some (mkLink pr w) else acc t := by
  unfold prStep prMatches
  by_cases hm : pr.state = "MERGED"
  · cases het : extractJiraTicket pr.title with
    | none => simp [hm, het]
    | some t0 =>
      by_cases hw : isInWeek pr.createdAt w = true
      · by_cases ht : t = t0
        · subst ht; simp [hm, het, hw]
        · have ht' : ¬(some t0 = some t) := fun h => ht (Option.some.inj h).symm
          simp [hm, het, hw, ht, ht']
      · simp [hm, het, hw]
  · simp [hm]

lemma build_go (w : Week) (t : String) :
    ∀ (prs : List PR) (acc : String → Option PRLink),
      (prs.foldl (prStep w) acc) t =
        match (prs.filter (prMatches w t)).getLast? with
        | some pr => some (mkLink pr w)
        | none => acc t := by
  intro prs
  induction prs with
  | nil => intro acc; rfl
  | cons pr prs ih =>
    intro acc
    rw [List.foldl_cons, ih]
    by_cases hm : prMatches w t pr = true
    · rw [List.filter_cons_of_pos hm]
      cases hf : prs.filter (prMatches w t) with
      | nil => simp [prStep_eq, hm]
      | cons q qs =>
        rw [List.getLast?_cons_cons]
        cases hql : (q :: qs).getLast? with
        | none => simp at hql
        | some z => rfl
    · rw [List.filter_cons_of_neg (by simpa using hm)]
      cases hql : (prs.filter (prMatches w t)).getLast? with
      | none => simp [prStep_eq, hm]
      | some z => rfl

/-- C5: with the end date normalized to 23:59:59.999, week membership is
the closed interval `start ≤ ts ≤ end + 86399999`; a PR created at
exactly the normalized end of week i belongs to week i and not to the
following week, one created at exactly the next week's start 00:00:00.000
belongs to that week and not to week i, no timestamp lies in two
non-overlapping weeks, and a PR enters a week's ticket mapping exactly
when it is MERGED, its title carries the ticket, and its creation time
passes this interval test. -/
theorem c5_week_boundary (w1 w2 : Week)
    (h1 : w1.startMs ≤ w1.endMs) (h2 : w2.startMs ≤ w2.endMs)
    (hadj : endOfDayMs w1.endMs < w2.startMs) :
    (∀ ts : Int, isInWeek ts w1 = true ↔ (w1.startMs ≤ ts ∧ ts ≤ endOfDayMs w1.endMs)) ∧
    isInWeek (endOfDayMs w1.endMs) w1 = true ∧
    isInWeek (endOfDayMs w1.endMs) w2 = false ∧
    isInWeek w2.startMs w2 = true ∧
    isInWeek w2.startMs w1 = false ∧
    (∀ ts : Int, isInWeek ts w1 = true → isInWeek ts w2 = false) ∧
    (∀ (pr : PR) (t : String),
      buildTicketToPRMapping [pr] w1 t =
        if prMatches w1 t pr then some (mkLink pr w1) else none) := by
  have hfalse : ∀ (ts : Int) (w : Week),
      ¬(w.startMs ≤ ts ∧ ts ≤ endOfDayMs w.endMs) → isInWeek ts w = false := by
    intro ts w h
    cases hb : isInWeek ts w with
    | false => rfl
    | true => exact absurd ((isInWeek_iff ts w).mp hb) h
  refine ⟨isInWeek_iff (w := w1), ?_, ?_, ?_, ?_, ?_, ?_⟩
  · exact (isInWeek_iff _ _).mpr ⟨by unfold endOfDayMs; omega, le_refl _⟩
  · exact hfalse _ _ (by unfold endOfDayMs at *; omega)
  · exact (isInWeek_iff _ _).mpr ⟨le_refl _, by unfold endOfDayMs; omega⟩
  · exact hfalse _ _ (by unfold endOfDayMs at *; omega)
  · intro ts hts
    have := (isInWeek_iff ts w1).mp hts
    exact hfalse _ _ (by unfold endOfDayMs at *; omega)
  · intro pr t
    show (List.foldl (prStep w1) (fun _ => none) [pr]) t = _
    rw [List.foldl_cons, List.foldl_nil, prStep_eq]

/-- C5 witness: two concrete adjacent weeks (Mon-Fri, a 3-day gap), with
the boundary instants attributed exclusively. -/
theorem c5_week_boundary_witness :
    (∀ ts : Int, isInWeek ts ⟨"Week 5", 0, 345600000⟩ = true ↔
        (0 ≤ ts ∧ ts ≤ endOfDayMs 345600000)) ∧
    isInWeek (endOfDayMs 345600000) ⟨"Week 5", 0, 345600000⟩ = true ∧
    isInWeek (endOfDayMs 345600000) ⟨"Week 6", 604800000, 950400000⟩ = false ∧
    isInWeek 604800000 ⟨"Week 6", 604800000, 950400000⟩ = true ∧
    isInWeek 604800000 ⟨"Week 5", 0, 345600000⟩ = false ∧
    (∀ ts : Int, isInWeek ts ⟨"Week 5", 0, 345600000⟩ = true →
      isInWeek ts ⟨"Week 6", 604800000, 950400000⟩ = false) ∧
    (∀ (pr : PR) (t : String),
      buildTicketToPRMapping [pr] ⟨"Week 5", 0, 345600000⟩ t =
        if prMatches ⟨"Week 5", 0, 345600000⟩ t pr
        then some (mkLink pr ⟨"Week 5", 0, 345600000⟩) else none) :=
  c5_week_boundary ⟨"Week 5", 0, 345600000⟩ ⟨"Week 6", 604800000, 950400000⟩
    (by decide) (by decide) (by decide)

/-- C6, counterexample: when two MERGED PRs for the same ticket are
created in the same week, the mapping holds the LAST one encountered
(PR #2), not the first (PR #1), because each match overwrites the entry. -/
theorem c6_counterexample :
    buildTicketToPRMapping
        [⟨1, some "AB-1 first", "MERGED", 5, some 9⟩,
         ⟨2, some "AB-1 second", "MERGED", 6, some 9⟩] ⟨"w", 0, 10⟩ "AB-1" =
      some ⟨2, 6, some 9, "w"⟩ ∧
    (⟨2, 6, some 9, "w"⟩ : PRLink) ≠ ⟨1, 5, some 9, "w"⟩ := by
  constructor <;> decide

/-- C6, amended: only MERGED pull requests whose title carries the ticket
and whose creation date lies in the week participate; a ticket maps to at
most one link (the mapping is a function), namely the link of the LAST
such PR in input order — or to nothing when no such PR exists. -/
theorem c6_last_merged_mapping (prs : List PR) (w : Week) (t : String) :
    buildTicketToPRMapping prs w t =
      ((prs.filter (prMatches w t)).getLast?).map (fun pr => mkLink pr w) := by
  rw [buildTicketToPRMapping, build_go]
  cases (prs.filter (prMatches w t)).getLast? with
  | none => rfl
  | some pr => rfl

/-- C10 witness: in a directory holding `agent-sub.jsonl`, `main.jsonl`
and `notes.txt`, the sub-agent transcript is not discovered. -/
theorem c10_agent_files_excluded_witness :
    jsStartsWith "agent-sub.jsonl" "agent-" = true ∧
    ("agent-sub.jsonl" ∉
        scanTree (.dir [.file "agent-sub.jsonl", .file "main.jsonl", .file "notes.txt"]) ∧
      ∀ n ∈ scanTree (.dir [.file "agent-sub.jsonl", .file "main.jsonl", .file "notes.txt"]),
        jsEndsWith n ".jsonl" = true ∧ jsStartsWith n "agent-" = false) :=
  ⟨by decide,
   c10_agent_files_excluded
     (.dir [.file "agent-sub.jsonl", .file "main.jsonl", .file "notes.txt"])
     "agent-sub.jsonl" (by decide)⟩

lemma stepBranch_wf (st : AttState) (e : Event) :
    (stepBranch st e).currentTicketFromWorkflow = st.currentTicketFromWorkflow := by
  cases hb : e.gitBranch with
  | none => simp [stepBranch, hb]
  | some b =>
    by_cases h : b ≠ "" <;> simp [stepBranch, hb, h]

lemma stepWorkflow_wf (st : AttState) (e : Event) :
    (stepWorkflow st e).currentTicketFromWorkflow =
      match wfSignal (some e) with
      | some t => some t
      | none => st.currentTicketFromWorkflow := by
  cases hm : e.message with
  | none => simp [stepWorkflow, wfSignal, hm]
  | some m =>
    cases hc : m.content with
    | none => simp [stepWorkflow, wfSignal, hm, hc]
    | some c =>
      by_cases h : c ≠ ""
      · cases hx : extractTicketFromWorkflow (some c) <;>
          simp [stepWorkflow, wfSignal, hm, hc, h, hx]
      · simp [stepWorkflow, wfSignal, hm, hc, h]

lemma stepState_wf_none (st : AttState) (e : Event) (h : wfSignal (some e) = none) :
    (stepState st e).currentTicketFromWorkflow = st.currentTicketFromWorkflow := by
  unfold stepState
  rw [stepWorkflow_wf, h, stepBranch_wf]

lemma stepState_wf_some (st : AttState) (e : Event) (B : String)
    (h : wfSignal (some e) = some B) :
    (stepState st e).currentTicketFromWorkflow = some B := by
  unfold stepState
  rw [stepWorkflow_wf, h]

lemma processLine_st (acc : FileAcc) (e : Event) :
    (processLine acc (some e)).st = stepState acc.st e := by
  cases hu : eventUsage e <;> simp [processLine, hu]

lemma processLine_token (acc : FileAcc) (e : Event) (u : Usage)
    (h : eventUsage e = some u) :
    processLine acc (some e) =
      ⟨stepState acc.st e,
       updateTok acc.tokens (resolveTicket (stepState acc.st e)) u⟩ := by
  simp [processLine, h]

lemma run_wf_preserved (l : List (Option Event))
    (h : ∀ x ∈ l, wfSignal x = none) :
    ∀ acc : FileAcc,
      (l.foldl processLine acc).st.currentTicketFromWorkflow =
        acc.st.currentTicketFromWorkflow := by
  induction l with
  | nil => intro acc; rfl
  | cons x xs ih =>
    intro acc
    rw [List.foldl_cons]
    rw [ih (fun y hy => h y (List.mem_cons_of_mem x hy))]
    cases x with
    | none => rfl
    | some e =>
      rw [processLine_st]
      exact stepState_wf_none acc.st e (h (some e) (List.mem_cons_self _ _))

lemma resolve_wf (st : AttState) (B : String)
    (h : st.currentTicketFromWorkflow = some B) : resolveTicket st = B := by
  unfold resolveTicket
  rw [h]

/-- C1: once a workflow-command signal sets the workflow ticket to `B`,
any later assistant message carrying usage attributes its tokens to `B`,
regardless of intervening branch-only events, as long as no newer
workflow signal arrived; and in general every usage-carrying event's
tokens go to the bucket `resolveTicket` picks — workflow ticket if set,
else branch ticket if set, else UNATTRIBUTED. -/
theorem c1_workflow_sticky (l1 l2 : List (Option Event)) (e e' : Event)
    (u : Usage) (B : String)
    (hset : wfSignal (some e) = some B)
    (hmid : ∀ x ∈ l2, wfSignal x = none)
    (hlast : wfSignal (some e') = none)
    (husage : eventUsage e' = some u) :
    resolveTicket (stepState (processFile (l1 ++ some e :: l2)).st e') = B ∧
    processFile (l1 ++ some e :: l2 ++ [some e']) =
      ⟨stepState (processFile (l1 ++ some e :: l2)).st e',
       updateTok (processFile (l1 ++ some e :: l2)).tokens B u⟩ ∧
    (∀ (acc : FileAcc) (e₀ : Event) (u₀ : Usage), eventUsage e₀ = some u₀ →
      processLine acc (some e₀) =
        ⟨stepState acc.st e₀,
         updateTok acc.tokens (resolveTicket (stepState acc.st e₀)) u₀⟩) := by
  have hacc : (processFile (l1 ++ some e :: l2)).st.currentTicketFromWorkflow = some B := by
    unfold processFile
    rw [List.foldl_append, List.foldl_cons, run_wf_preserved l2 hmid]
    rw [processLine_st]
    exact stepState_wf_some _ e B hset
  have hres : resolveTicket (stepState (processFile (l1 ++ some e :: l2)).st e') = B := by
    apply resolve_wf
    rw [stepState_wf_none _ e' hlast]
    exact hacc
  refine ⟨hres, ?_, fun acc e₀ u₀ h₀ => processLine_token acc e₀ u₀ h₀⟩
  show (((l1 ++ some e :: l2) ++ [some e']).foldl processLine initAcc) = _
  rw [List.foldl_append, List.foldl_cons, List.foldl_nil]
  rw [processLine_token _ e' u husage]
  have hres' :
      resolveTicket (stepState ((l1 ++ some e :: l2).foldl processLine initAcc).st e') = B :=
    hres
  rw [hres']
  rfl

/-- C1 witness: branch signal for VIBE-100, then workflow command for
VIBE-200, then another VIBE-100 branch event, then an assistant message
with usage: the usage lands on VIBE-200. -/
theorem c1_workflow_sticky_witness :
    resolveTicket
        (stepState (processFile [some evBranchA, some evWorkflowB, some evBranchA2]).st
          evAssistant) = "VIBE-200" ∧
    processFile [some evBranchA, some evWorkflowB, some evBranchA2, some evAssistant] =
      ⟨stepState (processFile [some evBranchA, some evWorkflowB, some evBranchA2]).st
          evAssistant,
       updateTok (processFile [some evBranchA, some evWorkflowB, some evBranchA2]).tokens
          "VIBE-200" usageSmall⟩ ∧
    (∀ (acc : FileAcc) (e₀ : Event) (u₀ : Usage), eventUsage e₀ = some u₀ →
      processLine acc (some e₀) =
        ⟨stepState acc.st e₀,
         updateTok acc.tokens (resolveTicket (stepState acc.st e₀)) u₀⟩) :=
  c1_workflow_sticky [some evBranchA] [some evBranchA2] evWorkflowB evAssistant
    usageSmall "VIBE-200" (by decide) (by decide) (by decide) (by decide)

lemma addTotals_zero_left (v : TokenTotals) : addTotals zeroTotals v = v := by
  cases v
  simp [addTotals, zeroTotals]

lemma addTotals_zero_right (v : TokenTotals) : addTotals v zeroTotals = v := by
  cases v
  simp [addTotals, zeroTotals]

lemma addTotals_comm (a b : TokenTotals) : addTotals a b = addTotals b a := by
  cases a
  cases b
  simp only [addTotals, TokenTotals.mk.injEq]
  omega

lemma addTotals_assoc (a b c : TokenTotals) :
    addTotals (addTotals a b) c = addTotals a (addTotals b c) := by
  cases a
  cases b
  cases c
  simp only [addTotals, TokenTotals.mk.injEq]
  omega

lemma mergeMaps_empty_left (f : TokMap) : mergeMaps emptyTok f = f := by
  funext t
  unfold mergeMaps emptyTok
  cases hf : f t with
  | none => rfl
  | some v => simp [addTotals_zero_left]

lemma mergeMaps_empty_right (g : TokMap) : mergeMaps g emptyTok = g := by
  funext t
  rfl

lemma mergeMaps_assoc (a b c : TokMap) :
    mergeMaps (mergeMaps a b) c = mergeMaps a (mergeMaps b c) := by
  funext t
  unfold mergeMaps
  cases ha : a t <;> cases hb : b t <;> cases hc : c t <;>
    simp [addTotals_assoc, addTotals_zero_left, addTotals_zero_right]

lemma mergeMaps_comm (a b : TokMap) : mergeMaps a b = mergeMaps b a := by
  funext t
  unfold mergeMaps
  cases ha : a t <;> cases hb : b t <;>
    simp [addTotals_comm, addTotals_zero_left, addTotals_zero_right]

lemma extractAll_from (files : List (List (Option Event))) :
    ∀ m : TokMap,
      files.foldl (fun g file => mergeMaps g (extractTokensFromTranscript file)) m =
        mergeMaps m (extractAllTokens files) := by
  induction files with
  | nil => intro m; rw [List.foldl_nil]; exact (mergeMaps_empty_right m).symm
  | cons f fs ih =>
    intro m
    rw [List.foldl_cons, ih]
    have h2 : extractAllTokens (f :: fs) =
        mergeMaps (extractTokensFromTranscript f) (extractAllTokens fs) := by
      unfold extractAllTokens
      rw [List.foldl_cons, ih, mergeMaps_empty_left]
      rfl
    rw [h2, mergeMaps_assoc]

/-- C4: the per-ticket token merge is purely additive, associative and
commutative: aggregating any two groups of transcript files separately
and merging the two aggregates equals aggregating the concatenation; the
per-event update adds the six counters (missing usage fields read as
zero, `total` being the computed sum of the five categories) to the
attributed ticket's entry and leaves every other ticket untouched. -/
theorem c4_merge_associative (g1 g2 : List (List (Option Event))) (m : TokMap)
    (t t' : String) (u : Usage) (hne : t' ≠ t) :
    extractAllTokens (g1 ++ g2) =
      mergeMaps (extractAllTokens g1) (extractAllTokens g2) ∧
    (∀ a b : TokMap, mergeMaps a b = mergeMaps b a) ∧
    (∀ a b c : TokMap, mergeMaps (mergeMaps a b) c = mergeMaps a (mergeMaps b c)) ∧
    updateTok m t u t = some (addTotals ((m t).getD zeroTotals) (usageToTotals u)) ∧
    updateTok m t u t' = m t' ∧
    (∀ v : Usage, usageToTotals v =
      ⟨v.input_tokens.getD 0 + v.output_tokens.getD 0 +
          v.cache_creation_input_tokens.getD 0 + v.cache_read_input_tokens.getD 0 +
          v.thinking_output_tokens.getD 0,
        v.input_tokens.getD 0, v.output_tokens.getD 0,
        v.cache_creation_input_tokens.getD 0, v.cache_read_input_tokens.getD 0,
        v.thinking_output_tokens.getD 0⟩) := by
  refine ⟨?_, mergeMaps_comm, mergeMaps_assoc, ?_, ?_, fun v => rfl⟩
  · unfold extractAllTokens
    rw [List.foldl_append]
    exact extractAll_from g2 _
  · unfold updateTok
    rw [if_pos rfl]
  · unfold updateTok
    rw [if_neg hne]

/-- C4 witness: the merge properties at a concrete two-file split and a
concrete per-ticket update. -/
theorem c4_merge_associative_witness :
    extractAllTokens
        ([[some evBranchA, some evAssistant]] ++ [[some evWorkflowB, some evAssistant]]) =
      mergeMaps (extractAllTokens [[some evBranchA, some evAssistant]])
        (extractAllTokens [[some evWorkflowB, some evAssistant]]) ∧
    (∀ a b : TokMap, mergeMaps a b = mergeMaps b a) ∧
    (∀ a b c : TokMap, mergeMaps (mergeMaps a b) c = mergeMaps a (mergeMaps b c)) ∧
    updateTok emptyTok "VIBE-100" usageSmall "VIBE-100" =
      some (addTotals ((emptyTok "VIBE-100").getD zeroTotals) (usageToTotals usageSmall)) ∧
    updateTok emptyTok "VIBE-100" usageSmall "VIBE-200" = emptyTok "VIBE-200" ∧
    (∀ v : Usage, usageToTotals v =
      ⟨v.input_tokens.getD 0 + v.output_tokens.getD 0 +
          v.cache_creation_input_tokens.getD 0 + v.cache_read_input_tokens.getD 0 +
          v.thinking_output_tokens.getD 0,
        v.input_tokens.getD 0, v.output_tokens.getD 0,
        v.cache_creation_input_tokens.getD 0, v.cache_read_input_tokens.getD 0,
        v.thinking_output_tokens.getD 0⟩) :=
  c4_merge_associative [[some evBranchA, some evAssistant]]
    [[some evWorkflowB, some evAssistant]] emptyTok "VIBE-100" "VIBE-200" usageSmall
    (by decide)

/-- The per-ticket contribution to `weekTotalTokens`. -/
def tokContrib (tokens : TokMap) (jira : String → Option Nat) (t : String) : Nat :=
  match jira t, tokens t with
  | some spv, some tk => if spv ≠ 0 then tk.total else 0
  | _, _ => 0

/-- The per-ticket contribution to `weekTotalSP`. -/
def spContrib (tokens : TokMap) (jira : String → Option Nat) (t : String) : Nat :=
  if (tokens t).isSome then (jira t).getD 0 else 0

lemma weekTotals_from (tokens : TokMap) (jira : String → Option Nat) :
    ∀ (l : List String) (acc : WeekAcc),
      l.foldl (weekStep tokens jira) acc =
        ⟨acc.tokensTot + (l.map (tokContrib tokens jira)).sum,
         acc.sp + (l.map (spContrib tokens jira)).sum,
         acc.spAll + (l.map (fun t => (jira t).getD 0)).sum⟩ := by
  intro l
  induction l with
  | nil => intro acc; simp
  | cons t ts ih =>
    intro acc
    rw [List.foldl_cons, ih]
    simp only [List.map_cons, List.sum_cons, WeekAcc.mk.injEq]
    cases hj : jira t with
    | none =>
      simp [weekStep, hj, tokContrib, spContrib]
    | some spv =>
      by_cases hs : spv ≠ 0
      · cases ht : tokens t with
        | none =>
          simp only [weekStep, hj, ht, if_pos hs]
          simp [tokContrib, spContrib, hj, ht]
          omega
        | some tk =>
          simp only [weekStep, hj, ht, if_pos hs]
          simp [tokContrib, spContrib, hj, ht, hs]
          omega
      · simp only [weekStep, hj, if_neg hs]
        simp only [ne_eq, not_not] at hs
        subst hs
        cases ht : tokens t <;> simp [tokContrib, spContrib, hj, ht]

/-- C7: in the weekly join, every ticket with a story-point value adds it
to `weekTotalSPAllTickets` whether or not it has attributed tokens (the
`spAll` counter is independent of the token map), while the
tokens-per-story-point ratio's numerator and denominator
(`weekTotalTokens`, `weekTotalSP`) receive a ticket's tokens and story
points only when the ticket has an attributed token entry. -/
theorem c7_story_points_without_tokens (tokens tokens' : TokMap)
    (jira : String → Option Nat) (l : List String) :
    (weekTotals tokens jira l).spAll = (l.map (fun t => (jira t).getD 0)).sum ∧
    (weekTotals tokens jira l).spAll = (weekTotals tokens' jira l).spAll ∧
    (weekTotals tokens jira l).sp = (l.map (spContrib tokens jira)).sum ∧
    (weekTotals tokens jira l).tokensTot = (l.map (tokContrib tokens jira)).sum := by
  unfold weekTotals
  rw [weekTotals_from, weekTotals_from]
  simp

lemma guarded_ratio_safe (qc : ℚ) (d : JSVal) (k : Nat) :
    (if jsGTzero d then toFixedVal k (jsDiv (JSVal.num qc) d) else JSVal.null) ≠ JSVal.nan ∧
    (if jsGTzero d then toFixedVal k (jsDiv (JSVal.num qc) d) else JSVal.null) ≠ JSVal.inf := by
  cases d with
  | num q =>
    by_cases hq : (0 : ℚ) < q
    · simp [jsGTzero, hq, jsDiv, toNum, toFixedVal, hq.ne']
    · simp [jsGTzero, hq]
  | null => simp [jsGTzero]
  | undef => simp [jsGTzero]
  | nan => simp [jsGTzero]
  | inf => simp [jsGTzero, jsDiv, toNum, toFixedVal]

lemma tokensPerSP_safe (n k : Nat) :
    tokensPerSP n k ≠ JSVal.nan ∧ tokensPerSP n k ≠ JSVal.inf := by
  by_cases hk : k > 0
  · have hkq : ((k : ℚ)) ≠ 0 := by
      exact_mod_cast Nat.pos_iff_ne_zero.mp hk
    simp [tokensPerSP, hk, jsDiv, toNum, jsRound, hkq]
  · simp [tokensPerSP, hk]

/-- C8, counterexample: with valid token/PR/LOC inputs but a missing
cycle time, `tokensPerCycleTime` is left as JavaScript `undefined`, not
`null` as the claim states (the dashboard generator writes `undefined`
explicitly when `cycleTime` is falsy). -/
theorem c8_counterexample :
    dashboardDerived (.num 1000) (.num 2) (.num 50) .null =
      (.num (1 / 10), .undef) ∧ JSVal.undef ≠ JSVal.null := by
  constructor
  · show (if truthy (JSVal.num 1000) && truthy (JSVal.num 2) && truthy (JSVal.num 50)
        then _ else _) = _
    norm_num [dashboardDerived, truthy, jsMul, jsDiv, toNum, toFixedVal, jsRound]
  · simp

/-- C8, amended: `tokensPerStoryPoint`, `costPerSP`, `costPerPR` and
`costPerLOC` are `null` whenever their denominator fails the positivity
guard or the cost input is falsy; `locPerToken` and `tokensPerCycleTime`
are left `undefined` (not `null`) when a required input is absent; and
none of the six ratios is ever `NaN` or `Infinity` (no exception can
escape: all operations are total). -/
theorem c8_ratio_guards (cost sp fpr loc tok cyc : JSVal) (tokN spN : Nat)
    (hcost : cost ≠ JSVal.nan ∧ cost ≠ JSVal.inf)
    (htok : tok ≠ JSVal.nan ∧ tok ≠ JSVal.inf)
    (hfpr : fpr ≠ JSVal.nan ∧ fpr ≠ JSVal.inf)
    (hloc : loc ≠ JSVal.nan ∧ loc ≠ JSVal.inf) :
    tokensPerSP tokN 0 = .null ∧
    (tokensPerSP tokN spN ≠ JSVal.nan ∧ tokensPerSP tokN spN ≠ JSVal.inf) ∧
    ((calculateCostMetrics cost sp fpr loc).totalCost ≠ JSVal.nan ∧
      (calculateCostMetrics cost sp fpr loc).totalCost ≠ JSVal.inf) ∧
    ((calculateCostMetrics cost sp fpr loc).costPerLOC ≠ JSVal.nan ∧
      (calculateCostMetrics cost sp fpr loc).costPerLOC ≠ JSVal.inf) ∧
    ((calculateCostMetrics cost sp fpr loc).costPerPR ≠ JSVal.nan ∧
      (calculateCostMetrics cost sp fpr loc).costPerPR ≠ JSVal.inf) ∧
    ((calculateCostMetrics cost sp fpr loc).costPerSP ≠ JSVal.nan ∧
      (calculateCostMetrics cost sp fpr loc).costPerSP ≠ JSVal.inf) ∧
    (truthy cost = false →
      calculateCostMetrics cost sp fpr loc = ⟨.null, .null, .null, .null⟩) ∧
    (jsGTzero loc = false → (calculateCostMetrics cost sp fpr loc).costPerLOC = .null) ∧
    (jsGTzero fpr = false → (calculateCostMetrics cost sp fpr loc).costPerPR = .null) ∧
    (jsGTzero sp = false → (calculateCostMetrics cost sp fpr loc).costPerSP = .null) ∧
    ((dashboardDerived tok fpr loc cyc).1 ≠ JSVal.nan ∧
      (dashboardDerived tok fpr loc cyc).1 ≠ JSVal.inf ∧
      (dashboardDerived tok fpr loc cyc).2 ≠ JSVal.nan ∧
      (dashboardDerived tok fpr loc cyc).2 ≠ JSVal.inf) ∧
    (truthy tok = false → dashboardDerived tok fpr loc cyc = (.undef, .undef)) ∧
    (truthy cyc = false → (dashboardDerived tok fpr loc cyc).2 = .undef) := by
  have hcm : ∀ x : JSVal, x ≠ JSVal.nan → x ≠ JSVal.inf →
      ((calculateCostMetrics x sp fpr loc).totalCost ≠ JSVal.nan ∧
        (calculateCostMetrics x sp fpr loc).totalCost ≠ JSVal.inf) ∧
      ((calculateCostMetrics x sp fpr loc).costPerLOC ≠ JSVal.nan ∧
        (calculateCostMetrics x sp fpr loc).costPerLOC ≠ JSVal.inf) ∧
      ((calculateCostMetrics x sp fpr loc).costPerPR ≠ JSVal.nan ∧
        (calculateCostMetrics x sp fpr loc).costPerPR ≠ JSVal.inf) ∧
      ((calculateCostMetrics x sp fpr loc).costPerSP ≠ JSVal.nan ∧
        (calculateCostMetrics x sp fpr loc).costPerSP ≠ JSVal.inf) := by
    intro x hxn hxi
    by_cases hx : truthy x = true
    · obtain ⟨qx, rfl⟩ : ∃ q, x = JSVal.num q := by
        cases x with
        | num q => exact ⟨q, rfl⟩
        | inf => exact absurd rfl hxi
        | nan => exact absurd rfl hxn
        | null => simp [truthy] at hx
        | undef => simp [truthy] at hx
      simp only [calculateCostMetrics, if_pos hx]
      exact ⟨by simp, guarded_ratio_safe qx loc 4, guarded_ratio_safe qx fpr 2,
        guarded_ratio_safe qx sp 2⟩
    · simp only [calculateCostMetrics, if_neg hx]
      simp
  have hguards : (truthy cost = false →
      calculateCostMetrics cost sp fpr loc = ⟨.null, .null, .null, .null⟩) ∧
      (jsGTzero loc = false → (calculateCostMetrics cost sp fpr loc).costPerLOC = .null) ∧
      (jsGTzero fpr = false → (calculateCostMetrics cost sp fpr loc).costPerPR = .null) ∧
      (jsGTzero sp = false → (calculateCostMetrics cost sp fpr loc).costPerSP = .null) := by
    refine ⟨fun hf => ?_, fun hf => ?_, fun hf => ?_, fun hf => ?_⟩ <;>
      by_cases hx : truthy cost = true <;>
        simp_all [calculateCostMetrics]
  have hdd : ((dashboardDerived tok fpr loc cyc).1 ≠ JSVal.nan ∧
      (dashboardDerived tok fpr loc cyc).1 ≠ JSVal.inf ∧
      (dashboardDerived tok fpr loc cyc).2 ≠ JSVal.nan ∧
      (dashboardDerived tok fpr loc cyc).2 ≠ JSVal.inf) ∧
      (truthy tok = false → dashboardDerived tok fpr loc cyc = (.undef, .undef)) ∧
      (truthy cyc = false → (dashboardDerived tok fpr loc cyc).2 = .undef) := by
    by_cases hg : (truthy tok && truthy fpr && truthy loc) = true
    · have htokT : truthy tok = true := by
        rcases Bool.and_eq_true_iff.mp hg with ⟨h1, _⟩
        rcases Bool.and_eq_true_iff.mp h1 with ⟨h2, _⟩
        exact h2
      have hfprT : truthy fpr = true := by
        rcases Bool.and_eq_true_iff.mp hg with ⟨h1, _⟩
        rcases Bool.and_eq_true_iff.mp h1 with ⟨_, h3⟩
        exact h3
      have hlocT : truthy loc = true := (Bool.and_eq_true_iff.mp hg).2
      obtain ⟨qt, rfl⟩ : ∃ q, tok = JSVal.num q := by
        cases tok with
        | num q => exact ⟨q, rfl⟩
        | inf => exact absurd rfl htok.2
        | nan => exact absurd rfl htok.1
        | null => simp [truthy] at htokT
        | undef => simp [truthy] at htokT
      obtain ⟨qf, rfl⟩ : ∃ q, fpr = JSVal.num q := by
        cases fpr with
        | num q => exact ⟨q, rfl⟩
        | inf => exact absurd rfl hfpr.2
        | nan => exact absurd rfl hfpr.1
        | null => simp [truthy] at hfprT
        | undef => simp [truthy] at hfprT
      obtain ⟨ql, rfl⟩ : ∃ q, loc = JSVal.num q := by
        cases loc with
        | num q => exact ⟨q, rfl⟩
        | inf => exact absurd rfl hloc.2
        | nan => exact absurd rfl hloc.1
        | null => simp [truthy] at hlocT
        | undef => simp [truthy] at hlocT
      have hqt : qt ≠ 0 := by simpa [truthy] using htokT
      refine ⟨⟨?_, ?_, ?_, ?_⟩, fun hf => ?_, fun hf => ?_⟩
      · simp [dashboardDerived, hg, jsMul, jsDiv, toNum, toFixedVal, hqt]
      · simp [dashboardDerived, hg, jsMul, jsDiv, toNum, toFixedVal, hqt]
      · simp only [dashboardDerived, if_pos hg]
        by_cases hcy : truthy cyc = true
        · obtain ⟨qy, hqy⟩ : ∃ q, q ≠ 0 ∧ cyc = JSVal.num q ∨ cyc = JSVal.inf := by
            cases cyc with
            | num q =>
              refine ⟨q, Or.inl ⟨?_, rfl⟩⟩
              simpa [truthy] using hcy
            | inf => exact ⟨0, Or.inr rfl⟩
            | nan => simp [truthy] at hcy
            | null => simp [truthy] at hcy
            | undef => simp [truthy] at hcy
          rcases hqy with ⟨hq0, rfl⟩ | rfl
          · simp [hcy, jsDiv, toNum, jsRound, hq0]
          · simp [hcy, jsDiv, toNum, jsRound]
        · simp [hcy]
      · simp only [dashboardDerived, if_pos hg]
        by_cases hcy : truthy cyc = true
        · obtain ⟨qy, hqy⟩ : ∃ q, q ≠ 0 ∧ cyc = JSVal.num q ∨ cyc = JSVal.inf := by
            cases cyc with
            | num q =>
              refine ⟨q, Or.inl ⟨?_, rfl⟩⟩
              simpa [truthy] using hcy
            | inf => exact ⟨0, Or.inr rfl⟩
            | nan => simp [truthy] at hcy
            | null => simp [truthy] at hcy
            | undef => simp [truthy] at hcy
          rcases hqy with ⟨hq0, rfl⟩ | rfl
          · simp [hcy, jsDiv, toNum, jsRound, hq0]
          · simp [hcy, jsDiv, toNum, jsRound]
        · simp [hcy]
      · rw [hf] at htokT; cases htokT
      · simp [dashboardDerived, hg, hf]
    · refine ⟨?_, fun hf => ?_, fun hf => ?_⟩ <;>
        simp [dashboardDerived, hg]
  obtain ⟨h1, h2, h3, h4⟩ := hcm cost hcost.1 hcost.2
  exact ⟨by simp [tokensPerSP], tokensPerSP_safe tokN spN, h1, h2, h3, h4,
    hguards.1, hguards.2.1, hguards.2.2.1, hguards.2.2.2, hdd.1, hdd.2.1, hdd.2.2⟩

/-- C8 witness: concrete inputs — cost 10 USD, missing story points,
4 feature PRs, zero LOC — give a `null` `tokensPerSP` for a zero
denominator and a `null` `costPerLOC` for the zero LOC denominator. -/
theorem c8_ratio_guards_witness :
    ((JSVal.num 10 ≠ JSVal.nan ∧ JSVal.num 10 ≠ JSVal.inf) ∧
      (JSVal.null ≠ JSVal.nan ∧ JSVal.null ≠ JSVal.inf) ∧
      (JSVal.num 4 ≠ JSVal.nan ∧ JSVal.num 4 ≠ JSVal.inf) ∧
      (JSVal.num 0 ≠ JSVal.nan ∧ JSVal.num 0 ≠ JSVal.inf)) ∧
    tokensPerSP 15 0 = .null ∧
    (jsGTzero (JSVal.num 0) = false →
      (calculateCostMetrics (.num 10) .null (.num 4) (.num 0)).costPerLOC = .null) :=
  ⟨⟨⟨by decide, by decide⟩, ⟨by decide, by decide⟩, ⟨by decide, by decide⟩,
    ⟨by decide, by decide⟩⟩,
   (c8_ratio_guards (.num 10) .null (.num 4) (.num 0) .null .null 15 2
      (by decide) (by decide) (by decide) (by decide)).1,
   (c8_ratio_guards (.num 10) .null (.num 4) (.num 0) .null .null 15 2
      (by decide) (by decide) (by decide) (by decide)).2.2.2.2.2.2.2.1⟩

lemma dedupGo_subset (f : String) (h : List String) (r : String) :
    ∀ (rows seen : List String), r ∈ dedupGo f h rows seen → r ∈ rows := by
  intro rows
  induction rows with
  | nil => intro seen hr; exact absurd hr (List.not_mem_nil r)
  | cons x xs ih =>
    intro seen hr
    unfold dedupGo at hr
    by_cases hk : getRowKey f x h ∈ seen
    · rw [if_pos hk] at hr
      exact List.mem_cons_of_mem x (ih seen hr)
    · rw [if_neg hk] at hr
      rcases List.mem_cons.mp hr with hr | hr
      · exact List.mem_cons.mpr (Or.inl hr)
      · exact List.mem_cons_of_mem x (ih _ hr)

lemma mem_dedupGo (f : String) (h : List String) (r : String) :
    ∀ (rows seen : List String),
      r ∈ dedupGo f h rows seen ↔
        ∃ pre suf, rows = pre ++ r :: suf ∧ getRowKey f r h ∉ seen ∧
          ∀ p ∈ pre, getRowKey f p h ≠ getRowKey f r h := by
  intro rows
  induction rows with
  | nil =>
    intro seen
    constructor
    · intro hr; exact absurd hr (List.not_mem_nil r)
    · rintro ⟨pre, suf, habs, -, -⟩
      exact absurd habs.symm (List.append_ne_nil_of_right_ne_nil pre (List.cons_ne_nil r suf))
  | cons x xs ih =>
    intro seen
    unfold dedupGo
    by_cases hk : getRowKey f x h ∈ seen
    · rw [if_pos hk]
      rw [ih seen]
      constructor
      · rintro ⟨pre, suf, hsplit, hnot, hpre⟩
        refine ⟨x :: pre, suf, by rw [hsplit, List.cons_append], hnot, ?_⟩
        intro p hp
        rcases List.mem_cons.mp hp with hp | hp
        · subst hp; intro hEq; exact hnot (hEq ▸ hk)
        · exact hpre p hp
      · rintro ⟨pre, suf, hsplit, hnot, hpre⟩
        cases pre with
        | nil =>
          simp only [List.nil_append, List.cons.injEq] at hsplit
          exact absurd (hsplit.1 ▸ hk) hnot
        | cons a pre' =>
          simp only [List.cons_append, List.cons.injEq] at hsplit
          exact ⟨pre', suf, hsplit.2, hnot,
            fun p hp => hpre p (List.mem_cons_of_mem a hp)⟩
    · rw [if_neg hk]
      constructor
      · intro hr
        rcases List.mem_cons.mp hr with hr | hr
        · subst hr
          exact ⟨[], xs, rfl, hk, by intro p hp; exact absurd hp (List.not_mem_nil p)⟩
        · obtain ⟨pre, suf, hsplit, hnot, hpre⟩ := (ih _).mp hr
          have hnk : getRowKey f r h ≠ getRowKey f x h := by
            intro hEq
            exact hnot (by rw [hEq]; exact List.mem_cons_self _ _)
          refine ⟨x :: pre, suf, by rw [hsplit, List.cons_append], ?_, ?_⟩
          · exact fun hmem => hnot (List.mem_cons_of_mem _ hmem)
          · intro p hp
            rcases List.mem_cons.mp hp with hp | hp
            · subst hp; exact fun hEq => hnk hEq.symm
            · exact hpre p hp
      · rintro ⟨pre, suf, hsplit, hnot, hpre⟩
        cases pre with
        | nil =>
          simp only [List.nil_append, List.cons.injEq] at hsplit
          exact List.mem_cons.mpr (Or.inl hsplit.1.symm)
        | cons a pre' =>
          simp only [List.cons_append, List.cons.injEq] at hsplit
          apply List.mem_cons_of_mem
          apply (ih _).mpr
          refine ⟨pre', suf, hsplit.2, ?_, fun p hp => hpre p (List.mem_cons_of_mem a hp)⟩
          intro hmem
          rcases List.mem_cons.mp hmem with hEq | hmem'
          · exact hpre a (List.mem_cons_self a pre') (by rw [← hsplit.1]; exact hEq.symm)
          · exact hnot hmem'

lemma keys_dedupGo (f : String) (h : List String) :
    ∀ (rows seen : List String) (k : String), k ∉ seen →
      (k ∈ (dedupGo f h rows seen).map (fun r => getRowKey f r h) ↔
        k ∈ rows.map (fun r => getRowKey f r h)) := by
  intro rows
  induction rows with
  | nil => intro seen k _; rfl
  | cons x xs ih =>
    intro seen k hkseen
    unfold dedupGo
    by_cases hk : getRowKey f x h ∈ seen
    · rw [if_pos hk]
      rw [ih seen k hkseen]
      simp only [List.map_cons, List.mem_cons]
      constructor
      · exact Or.inr
      · rintro (hEq | hmem)
        · exact absurd (hEq ▸ hk) hkseen
        · exact hmem
    · rw [if_neg hk]
      simp only [List.map_cons, List.mem_cons]
      by_cases hkx : k = getRowKey f x h
      · subst hkx
        exact ⟨fun _ => Or.inl rfl, fun _ => Or.inl rfl⟩
      · have : k ∉ getRowKey f x h :: seen := by
          intro hmem
          rcases List.mem_cons.mp hmem with hEq | hmem'
          · exact hkx hEq
          · exact hkseen hmem'
        rw [ih _ k this]

lemma dedupGo_fresh (f : String) (h : List String) :
    ∀ (rows seen : List String) (r : String), r ∈ dedupGo f h rows seen →
      getRowKey f r h ∉ seen := by
  intro rows seen r hr
  exact ((mem_dedupGo f h r rows seen).mp hr).choose_spec.choose_spec.2.1

lemma dedupGo_pairwise (f : String) (h : List String) :
    ∀ (rows seen : List String),
      (dedupGo f h rows seen).Pairwise
        (fun a b => getRowKey f a h ≠ getRowKey f b h) := by
  intro rows
  induction rows with
  | nil => intro seen; exact List.Pairwise.nil
  | cons x xs ih =>
    intro seen
    unfold dedupGo
    by_cases hk : getRowKey f x h ∈ seen
    · rw [if_pos hk]; exact ih seen
    · rw [if_neg hk]
      refine List.Pairwise.cons ?_ (ih _)
      intro y hy
      have := dedupGo_fresh f h xs (getRowKey f x h :: seen) y hy
      intro hEq
      exact this (hEq ▸ List.mem_cons_self _ _)

lemma dedupGo_id_of (f : String) (h : List String) :
    ∀ (rows seen : List String),
      rows.Pairwise (fun a b => getRowKey f a h ≠ getRowKey f b h) →
      (∀ r ∈ rows, getRowKey f r h ∉ seen) →
      dedupGo f h rows seen = rows := by
  intro rows
  induction rows with
  | nil => intro seen _ _; rfl
  | cons x xs ih =>
    intro seen hpw hfresh
    unfold dedupGo
    rw [if_neg (hfresh x (List.mem_cons_self x xs))]
    congr 1
    apply ih
    · exact hpw.of_cons
    · intro r hr
      intro hmem
      rcases List.mem_cons.mp hmem with hEq | hmem'
      · exact (List.pairwise_cons.mp hpw).1 r hr hEq.symm
      · exact hfresh r (List.mem_cons_of_mem x hr) hmem'

lemma exists_first_split (a : String) :
    ∀ l : List String, a ∈ l → ∃ s t, l = s ++ a :: t ∧ a ∉ s := by
  intro l
  induction l with
  | nil => intro hmem; exact absurd hmem (List.not_mem_nil a)
  | cons x xs ih =>
    intro hmem
    by_cases hax : a = x
    · subst hax; exact ⟨[], xs, rfl, List.not_mem_nil a⟩
    · rcases List.mem_cons.mp hmem with hEq | hmem'
      · exact absurd hEq hax
      · obtain ⟨s, t, hsplit, hnot⟩ := ih hmem'
        refine ⟨x :: s, t, by rw [hsplit, List.cons_append], ?_⟩
        intro hmem''
        rcases List.mem_cons.mp hmem'' with hEq | hmem'''
        · exact hax hEq
        · exact hnot hmem'''

/-- C3, counterexample: two distinct session rows agreeing on the
composite key `(session_id, branch, started_at, ended_at)` but differing
in `turn_count`: the two orderings of the same multiset keep different
rows, so the deduplicated output is NOT the same set for every input
order. -/
theorem c3_counterexample :
    dedupRows "sessions.csv" ["session_id", "branch", "started_at", "ended_at", "turn_count"]
        ["S1,foo,100,200,5", "S1,foo,100,200,7"] = ["S1,foo,100,200,5"] ∧
    dedupRows "sessions.csv" ["session_id", "branch", "started_at", "ended_at", "turn_count"]
        ["S1,foo,100,200,7", "S1,foo,100,200,5"] = ["S1,foo,100,200,7"] ∧
    ("S1,foo,100,200,5" : String) ≠ "S1,foo,100,200,7" ∧
    List.Perm ["S1,foo,100,200,5", "S1,foo,100,200,7"]
      ["S1,foo,100,200,7", "S1,foo,100,200,5"] := by
  refine ⟨by decide, by decide, by decide, ?_⟩
  exact List.Perm.swap _ _ _

/-- C3, amended: a row is kept exactly when its composite key has not
been seen before (first occurrence wins); the SET OF KEYS of the output
equals the set of keys of the input, hence is order- and
duplication-independent; deduplication is idempotent; and when any two
input rows that agree on their key are identical (e.g. duplication of
whole rows only), the output is the same set of rows for every
permutation of the input. -/
theorem c3_dedup_properties (f : String) (h : List String) (rows rows' : List String)
    (hperm : rows.Perm rows')
    (hinj : ∀ r ∈ rows, ∀ r' ∈ rows, getRowKey f r h = getRowKey f r' h → r = r') :
    (∀ r, r ∈ dedupRows f h rows ↔
      ∃ pre suf, rows = pre ++ r :: suf ∧
        ∀ p ∈ pre, getRowKey f p h ≠ getRowKey f r h) ∧
    (∀ k, k ∈ (dedupRows f h rows).map (fun r => getRowKey f r h) ↔
      k ∈ rows.map (fun r => getRowKey f r h)) ∧
    dedupRows f h (dedupRows f h rows) = dedupRows f h rows ∧
    (∀ r, r ∈ dedupRows f h rows ↔ r ∈ dedupRows f h rows') := by
  have hmem : ∀ (l : List String)
      (hi : ∀ r ∈ l, ∀ r' ∈ l, getRowKey f r h = getRowKey f r' h → r = r') (r : String),
      r ∈ dedupRows f h l ↔ r ∈ l := by
    intro l hi r
    constructor
    · exact dedupGo_subset f h r l []
    · intro hr
      obtain ⟨s, t, hsplit, hnot⟩ := exists_first_split r l hr
      apply (mem_dedupGo f h r l []).mpr
      refine ⟨s, t, hsplit, List.not_mem_nil _, ?_⟩
      intro p hp hEq
      have hpl : p ∈ l := by rw [hsplit]; exact List.mem_append_left _ hp
      exact hnot ((hi p hpl r hr hEq) ▸ hp)
  refine ⟨?_, ?_, ?_, ?_⟩
  · intro r
    rw [show dedupRows f h rows = dedupGo f h rows [] from rfl, mem_dedupGo]
    constructor
    · rintro ⟨pre, suf, hsplit, -, hpre⟩; exact ⟨pre, suf, hsplit, hpre⟩
    · rintro ⟨pre, suf, hsplit, hpre⟩
      exact ⟨pre, suf, hsplit, List.not_mem_nil _, hpre⟩
  · intro k
    exact keys_dedupGo f h rows [] k (List.not_mem_nil k)
  · exact dedupGo_id_of f h (dedupRows f h rows) []
      (dedupGo_pairwise f h rows []) (fun r _ => List.not_mem_nil _)
  · intro r
    have hinj' : ∀ r ∈ rows', ∀ r' ∈ rows', getRowKey f r h = getRowKey f r' h → r = r' := by
      intro a ha b hb
      exact hinj a (hperm.mem_iff.mpr ha) b (hperm.mem_iff.mpr hb)
    rw [hmem rows hinj r, hmem rows' hinj' r]
    exact hperm.mem_iff

/-- C3 witness: two contributor exports each holding the same session row
plus one unique row each — whatever the order, the merged output is the
same 3-element set (the spec's own scenario). -/
theorem c3_dedup_properties_witness :
    List.Perm ["S1,foo,100,200,5", "U1,a,1,2,3", "S1,foo,100,200,5", "U2,b,4,5,6"]
      ["U2,b,4,5,6", "S1,foo,100,200,5", "U1,a,1,2,3", "S1,foo,100,200,5"] ∧
    dedupRows "sessions.csv" ["session_id", "branch", "started_at", "ended_at", "turn_count"]
      (dedupRows "sessions.csv" ["session_id", "branch", "started_at", "ended_at", "turn_count"]
        ["S1,foo,100,200,5", "U1,a,1,2,3", "S1,foo,100,200,5", "U2,b,4,5,6"]) =
      dedupRows "sessions.csv" ["session_id", "branch", "started_at", "ended_at", "turn_count"]
        ["S1,foo,100,200,5", "U1,a,1,2,3", "S1,foo,100,200,5", "U2,b,4,5,6"] ∧
    (∀ r, r ∈ dedupRows "sessions.csv"
        ["session_id", "branch", "started_at", "ended_at", "turn_count"]
        ["S1,foo,100,200,5", "U1,a,1,2,3", "S1,foo,100,200,5", "U2,b,4,5,6"] ↔
      r ∈ dedupRows "sessions.csv"
        ["session_id", "branch", "started_at", "ended_at", "turn_count"]
        ["U2,b,4,5,6", "S1,foo,100,200,5", "U1,a,1,2,3", "S1,foo,100,200,5"]) :=
  ⟨by decide,
   (c3_dedup_properties "sessions.csv"
      ["session_id", "branch", "started_at", "ended_at", "turn_count"]
      ["S1,foo,100,200,5", "U1,a,1,2,3", "S1,foo,100,200,5", "U2,b,4,5,6"]
      ["U2,b,4,5,6", "S1,foo,100,200,5", "U1,a,1,2,3", "S1,foo,100,200,5"]
      (by decide) (by decide)).2.2.1,
   (c3_dedup_properties "sessions.csv"
      ["session_id", "branch", "started_at", "ended_at", "turn_count"]
      ["S1,foo,100,200,5", "U1,a,1,2,3", "S1,foo,100,200,5", "U2,b,4,5,6"]
      ["U2,b,4,5,6", "S1,foo,100,200,5", "U1,a,1,2,3", "S1,foo,100,200,5"]
      (by decide) (by decide)).2.2.2⟩

end Sdlc
